import Mathlib

/-!
Verification of the toad-mcp tool-dispatch gateway's query and mutation
semantics.  The definitions below are a shallow embedding of the Rust
sources under `src/`: pure filtering logic from `src/tools/discovery.rs`,
the mutation handlers from `src/tools/management.rs`, project comparison
from `src/tools/analysis.rs`, and the error translation table from
`src/errors.rs`.  Rust strings are modelled as Lean `String`s; Rust's
`str::to_lowercase` is modelled as a character-wise lowercase map, and
`str::contains`/`starts_with` are modelled by explicit recursions over the
character list.  Handlers that load a persisted file, mutate it in memory
and save it back are modelled as functions taking the persisted state and
returning the persisted state after the call together with the call's
`Result`.
-/

namespace ToadMcp

/-- Models Rust `str::to_lowercase()` (character-wise lowercasing). -/
def lowerStr (s : String) : String := ⟨s.data.map Char.toLower⟩

/-- `startsWithCL hay needle`: the character list `hay` starts with `needle`. -/
def startsWithCL : List Char → List Char → Bool
  | _, [] => true
  | [], _ :: _ => false
  | a :: as, b :: bs => a == b && startsWithCL as bs

/-- `containsCL hay needle`: `needle` occurs as a contiguous substring of `hay`. -/
def containsCL : List Char → List Char → Bool
  | [], needle => needle.isEmpty
  | a :: as, needle => startsWithCL (a :: as) needle || containsCL as needle

/-- Models Rust `str::contains` (substring test). -/
def strContains (hay needle : String) : Bool := containsCL hay.data needle.data

/-- Models Rust `s.starts_with('#')`. -/
def startsWithHash (s : String) : Bool :=
  match s.data with
  | [] => false
  | c :: _ => c == '#'

/-- Tag-filter normalization used by `list_projects`
(`src/tools/discovery.rs` lines 17–23): lowercase, and prepend `#` when
the supplied value does not already start with `#`. -/
def normTag (s : String) : String :=
  if startsWithHash s then lowerStr s else "#" ++ lowerStr s

/-! ## Data model (§3 of the spec; `toad_core` project records) -/

/-- A project's DNA substructure: roles, capabilities, structural patterns. -/
structure Dna where
  roles : List String
  capabilities : List String
  structural_patterns : List String
  deriving DecidableEq, Repr

/-- A submodule record (name and stack are all the handlers read). -/
structure Submodule where
  name : String
  stack : String
  deriving DecidableEq, Repr

/-- A project record.  `activity` and `vcs_status` are enum-like values the
handlers only ever observe through `to_string()`, so they are modelled
directly by their textual rendering. -/
structure Project where
  name : String
  path : String
  stack : String
  tags : List String
  activity : String
  vcs_status : String
  dna : Dna
  submodules : List Submodule
  deriving DecidableEq, Repr

/-! ## `list_projects` (src/tools/discovery.rs lines 11–72) -/

/-- Arguments of `list_projects` (`ListProjectsParams` in `src/server.rs`). -/
structure ListProjectsParams where
  query : Option String
  tag : Option String
  stack : Option String
  activity : Option String
  vcs_status : Option String
  deriving DecidableEq, Repr

/-- The retain-predicate of `list_projects`, applied to the already
normalized filter values (the early-return chain of the Rust closure). -/
def listProjectsPred (qf tf sf af vf : Option String) (p : Project) : Bool :=
  (match qf with
   | some q => strContains (lowerStr p.name) q
   | none => true) &&
  ((match tf with
    | some t => p.tags.any fun tag => lowerStr tag == t
    | none => true) &&
   ((match sf with
     | some s => strContains (lowerStr p.stack) s
     | none => true) &&
    ((match af with
      | some a => strContains (lowerStr p.activity) a
      | none => true) &&
     (match vf with
      | some v => strContains (lowerStr p.vcs_status) v
      | none => true))))

/-- `list_projects` over a registry snapshot: normalize the five optional
filters (query/stack/activity/vcs lowercased, tag additionally
`#`-prefixed) and keep the records passing every active filter. -/
def list_projects (params : ListProjectsParams) (projects : List Project) :
    List Project :=
  projects.filter
    (listProjectsPred (params.query.map lowerStr) (params.tag.map normTag)
      (params.stack.map lowerStr) (params.activity.map lowerStr)
      (params.vcs_status.map lowerStr))

/-! ## `search_projects_by_dna` (src/tools/discovery.rs lines 74–109) -/

/-- DNA match for an already-lowercased query: substring match against any
role, capability or structural pattern (logical OR). -/
def dnaPred (q : String) (p : Project) : Bool :=
  p.dna.roles.any (fun r => strContains (lowerStr r) q)
    || p.dna.capabilities.any (fun c => strContains (lowerStr c) q)
    || p.dna.structural_patterns.any (fun sp => strContains (lowerStr sp) q)

/-- `search_projects_by_dna`: lowercases the query and filters by
`dnaPred`.  The `tag` argument is part of the declared parameter type
(`SearchProjectsParams`) but the handler body never reads it. -/
def search_projects_by_dna (query : String) (tag : Option String)
    (projects : List Project) : List Project :=
  projects.filter (dnaPred (lowerStr query))

/-! ## `get_git_status` / `list_branches` target selection
(src/tools/discovery.rs lines 185–292) -/

/-- The shared retain-predicate of `get_git_status` and `list_branches`:
case-insensitive name-substring filter and case-insensitive exact tag
match on the tag value exactly as supplied (no `#` injection). -/
def gitTagPred (query tag : Option String) (p : Project) : Bool :=
  (match query with
   | some q => strContains (lowerStr p.name) (lowerStr q)
   | none => true) &&
  (match tag with
   | some t => p.tags.any fun tg => lowerStr tg == lowerStr t
   | none => true)

/-- Target selection of `get_git_status`. -/
def get_git_status_targets (query tag : Option String)
    (projects : List Project) : List Project :=
  projects.filter (gitTagPred query tag)

/-- Target selection of `list_branches` (its filter closure is
character-for-character the one of `get_git_status`). -/
def list_branches_targets (query tag : Option String)
    (projects : List Project) : List Project :=
  projects.filter (gitTagPred query tag)

/-! ## Error taxonomy and translation (src/errors.rs) -/

/-- The domain error kinds of `toad_core::ToadError` that `src/errors.rs`
matches on (the catch-all arm of the Rust `match` is represented by the
listed constructors sufficing for every error the embedded handlers
raise). -/
inductive ToadError where
  | PathNotFound (path : String)
  | ContextNotFound (name : String)
  | Io (msg : String)
  | Serde (msg : String)
  | WorkspaceNotFound
  | Other (msg : String)
  | Anyhow (msg : String)
  deriving DecidableEq, Repr

/-- A protocol-level error: numeric code and human-readable message. -/
structure McpError where
  code : Int
  message : String
  deriving DecidableEq, Repr

/-- `toad_error_to_mcp` from `src/errors.rs`.  `PathNotFound` goes through
`McpError::resource_not_found`, whose code in the protocol library is
`-32002`. -/
def toad_error_to_mcp : ToadError → McpError
  | .PathNotFound p => ⟨-32002, "Path not found: " ++ p⟩
  | .ContextNotFound n => ⟨-32004, "Context '" ++ n ++ "' not found"⟩
  | .Io e => ⟨-32002, e⟩
  | .Serde e => ⟨-32003, e⟩
  | .WorkspaceNotFound => ⟨-32001, "Workspace not found"⟩
  | .Other msg => ⟨-32000, msg⟩
  | .Anyhow msg => ⟨-32000, msg⟩

/-- The spec's collapsed error classification (§4.5): path-not-found and
context-not-found are the caller-input (invalid-parameter) class, all other
kinds are the internal-error class.  Stated from the spec's words to
compare the classification against what the code emits. -/
def isCallerInputClass : ToadError → Bool
  | .PathNotFound _ => true
  | .ContextNotFound _ => true
  | _ => false

/-! ## `switch_context` (src/tools/management.rs lines 64–86) -/

/-- A registered context (only the fields the embedded handlers read). -/
structure ProjectContext where
  path : String
  deriving DecidableEq, Repr

/-- The persisted global configuration: registered contexts and the active
context name. -/
structure GlobalConfig where
  project_contexts : List (String × ProjectContext)
  active_context : Option String
  deriving DecidableEq, Repr

/-- Models `config.project_contexts.contains_key(&name)`. -/
def containsKey (m : List (String × ProjectContext)) (k : String) : Bool :=
  m.any fun e => e.1 == k

/-- `switch_context`: load the configuration, fail with `ContextNotFound`
when the name is not a registered context key, otherwise set it active and
save.  The first component of the result is the persisted configuration
after the call (unchanged on the error path, where `save` is never
reached). -/
def switch_context (name : String) (config : GlobalConfig) :
    GlobalConfig × Except ToadError String :=
  if containsKey config.project_contexts name then
    ({ config with active_context := some name },
     .ok ("Switched to context '" ++ name ++ "'"))
  else
    (config, .error (.ContextNotFound name))

/-! ## Tag registry (`toad_core::TagRegistry`) -/

/-- Modelled from the spec: `TagRegistry` lives in the external `toad_core`
crate, not in this repository's sources.  §3 describes it as a persisted
mapping from project name to a set of tags, loaded and saved as a unit. -/
abbrev TagRegistry := List (String × List String)

/-- Insert a tag into a tag set, keeping the set duplicate-free. -/
def addToSet (ts : List String) (t : String) : List String :=
  if t ∈ ts then ts else ts ++ [t]

/-- Modelled from the spec: `TagRegistry::add_tag` lives in the external
`toad_core` crate.  §3/§4.6 describe an idempotent add — adding an existing
tag is a silent no-op; a project absent from the registry gets a fresh
entry. -/
def addTag : TagRegistry → String → String → TagRegistry
  | [], n, t => [(n, [t])]
  | e :: rest, n, t =>
    if e.1 = n then (e.1, addToSet e.2 t) :: rest
    else e :: addTag rest n t

/-- Apply `addTag` over a list of (project name, tag) pairs, left to
right. -/
def addAll (reg : TagRegistry) (pairs : List (String × String)) :
    TagRegistry :=
  pairs.foldl (fun r pr => addTag r pr.1 pr.2) reg

/-- The first entry of the registry whose key is `n` exists and already
contains the tag `t` (the entry `addTag` would touch). -/
def FirstEntryHas : TagRegistry → String → String → Prop
  | [], _, _ => False
  | e :: rest, n, t => if e.1 = n then t ∈ e.2 else FirstEntryHas rest n t

/-! ## `tag_projects` (src/tools/management.rs lines 167–252) -/

/-- Arguments of `tag_projects` (`TagParams` in `src/server.rs`). -/
structure TagParams where
  project : Option String
  tag : Option String
  query : Option String
  filter_tag : Option String
  harvest : Option Bool
  deriving DecidableEq, Repr

/-- The filtered-mode match predicate of `tag_projects`: case-insensitive
name-substring filter AND existing-tag filter, the latter `#`-prefixing
the supplied value (without lowercasing it first) and then comparing
case-insensitively. -/
def filteredMatch (query filter_tag : Option String) (p : Project) : Bool :=
  (match query with
   | some q => strContains (lowerStr p.name) (lowerStr q)
   | none => true) &&
  (match filter_tag with
   | some t =>
     p.tags.any fun tag =>
       lowerStr tag == lowerStr (if startsWithHash t then t else "#" ++ t)
   | none => true)

/-- The (target name, tag) pairs added by harvest mode: for each project
its lowercased stack, then for each of its submodules the submodule's
lowercased stack. -/
def harvestPairs : List Project → List (String × String)
  | [] => []
  | p :: rest =>
    (p.name, lowerStr p.stack)
      :: (p.submodules.map fun sub => (sub.name, lowerStr sub.stack))
      ++ harvestPairs rest

/-- `tag_projects`: the three mutually exclusive modes of
`src/tools/management.rs` lines 178–242.  The first component of the
result is the persisted tag registry after the call; `save` is reached
only on the paths that return `Tagged N projects.`, and the registry is
mutated only on those paths, so every other path returns the input
registry. -/
def tag_projects (params : TagParams) (projects : List Project)
    (reg : TagRegistry) : TagRegistry × Except ToadError String :=
  if params.harvest.getD false then
    (addAll reg (harvestPairs projects),
     .ok ("Tagged " ++ toString (harvestPairs projects).length
       ++ " projects."))
  else if params.query.isSome || params.filter_tag.isSome then
    match params.tag.or params.project with
    | none => (reg, .error (.Other "Must provide a tag name to assign."))
    | some tn =>
      if (projects.filter (filteredMatch params.query params.filter_tag)).isEmpty then
        (reg, .ok "No projects found matching filters.")
      else
        (addAll reg
          ((projects.filter (filteredMatch params.query params.filter_tag)).map
            fun p => (p.name, tn)),
         .ok ("Tagged "
           ++ toString (projects.filter (filteredMatch params.query params.filter_tag)).length
           ++ " projects."))
  else
    match params.project with
    | none => (reg, .error (.Other "Must provide a project name or use filters."))
    | some pn =>
      match params.tag with
      | none => (reg, .error (.Other "Must provide a tag name."))
      | some tn => (addTag reg pn tn, .ok ("Tagged 1 projects."))

/-! ## `compare_projects` (src/tools/analysis.rs lines 11–44) -/

/-- `compare_projects` resolves the source project by exact name, then the
target; a miss on either side raises `ToadError::Other` with a message
naming the missing project.  The comparison itself is delegated to the
external `toad_ops` collaborator, so the embedding returns the resolved
pair. -/
def compare_projects (source target : String) (projects : List Project) :
    Except ToadError (Project × Project) :=
  match projects.find? (fun p => p.name == source) with
  | none => .error (.Other ("Source project '" ++ source ++ "' not found"))
  | some a =>
    match projects.find? (fun p => p.name == target) with
    | none => .error (.Other ("Target project '" ++ target ++ "' not found"))
    | some b => .ok (a, b)

instance {ε α : Type} [DecidableEq ε] [DecidableEq α] :
    DecidableEq (Except ε α) := fun x y =>
  match x, y with
  | .error a, .error b =>
    if h : a = b then .isTrue (h ▸ rfl)
    else .isFalse fun hh => h (Except.error.inj hh)
  | .ok a, .ok b =>
    if h : a = b then .isTrue (h ▸ rfl)
    else .isFalse fun hh => h (Except.ok.inj hh)
  | .error _, .ok _ => .isFalse Except.noConfusion
  | .ok _, .error _ => .isFalse Except.noConfusion

/-! ## Concrete fixtures (the spec's §8 scenarios) -/

/-- The spec's concrete project `alpha`: tags `["#backend"]`, stack `go`. -/
def alphaProj : Project :=
  { name := "alpha", path := "/ws/alpha", stack := "go", tags := ["#backend"],
    activity := "Active", vcs_status := "Clean", dna := ⟨[], [], []⟩,
    submodules := [] }

/-- The spec's concrete project `beta`: tags `["#frontend"]`, stack `ts`. -/
def betaProj : Project :=
  { name := "beta", path := "/ws/beta", stack := "ts", tags := ["#frontend"],
    activity := "Active", vcs_status := "Clean", dna := ⟨[], [], []⟩,
    submodules := [] }

/-- A project whose DNA roles match the query `async` but which carries no
tags at all. -/
def asyncProj : Project :=
  { name := "gamma", path := "/ws/gamma", stack := "rust", tags := [],
    activity := "Active", vcs_status := "Clean",
    dna := ⟨["async worker"], [], []⟩, submodules := [] }

/-- The spec's harvest scenario: one project named `that-project` with
stack `rust` and no submodules. -/
def thatProject : Project :=
  { name := "that-project", path := "/ws/that-project", stack := "rust",
    tags := [], activity := "Active", vcs_status := "Clean",
    dna := ⟨[], [], []⟩, submodules := [] }

/-- A configuration with a single registered context `alpha-ctx`. -/
def cfgAB : GlobalConfig :=
  { project_contexts := [("alpha-ctx", ⟨"/ws/alpha"⟩)],
    active_context := some "alpha-ctx" }

/-! ## String lemmas -/

theorem hash_append_data (t : String) : ("#" ++ t).data = '#' :: t.data := by
  cases t
  rfl

theorem lowerStr_hash (t : String) : lowerStr ("#" ++ t) = "#" ++ lowerStr t := by
  apply String.ext
  show (("#" ++ t).data.map Char.toLower) = ("#" ++ lowerStr t).data
  rw [hash_append_data, hash_append_data]
  simp [lowerStr]

theorem startsWithHash_hash_append (t : String) :
    startsWithHash ("#" ++ t) = true := by
  simp [startsWithHash, hash_append_data]

theorem normTag_hash_append (t : String) (h : startsWithHash t = false) :
    normTag ("#" ++ t) = normTag t := by
  unfold normTag
  rw [startsWithHash_hash_append, h]
  simp [lowerStr_hash]

theorem containsCL_nil (hay : List Char) : containsCL hay [] = true := by
  cases hay <;> simp [containsCL, startsWithCL, List.isEmpty]

theorem strContains_empty (s : String) : strContains s "" = true := by
  show containsCL s.data ("" : String).data = true
  have h : ("" : String).data = [] := rfl
  rw [h, containsCL_nil]

/-! ## Tag registry lemmas -/

theorem mem_addToSet_self (ts : List String) (t : String) :
    t ∈ addToSet ts t := by
  by_cases h : t ∈ ts <;> simp [addToSet, h]

theorem mem_addToSet_of_mem (ts : List String) (s t : String) (h : s ∈ ts) :
    s ∈ addToSet ts t := by
  by_cases h2 : t ∈ ts <;> simp [addToSet, h2, h]

theorem firstEntryHas_addTag_self (reg : TagRegistry) (n t : String) :
    FirstEntryHas (addTag reg n t) n t := by
  induction reg with
  | nil => simp [addTag, FirstEntryHas]
  | cons e rest ih =>
    obtain ⟨k, ts⟩ := e
    by_cases h : k = n
    · subst h
      simp [addTag, FirstEntryHas, mem_addToSet_self]
    · simp [addTag, h, FirstEntryHas, ih]

theorem addTag_of_firstEntryHas (reg : TagRegistry) (n t : String)
    (h : FirstEntryHas reg n t) : addTag reg n t = reg := by
  induction reg with
  | nil => simp [FirstEntryHas] at h
  | cons e rest ih =>
    obtain ⟨k, ts⟩ := e
    by_cases h2 : k = n
    · subst h2
      simp [FirstEntryHas] at h
      simp [addTag, addToSet, h]
    · simp [FirstEntryHas, h2] at h
      simp [addTag, h2, ih h]

theorem firstEntryHas_addTag (reg : TagRegistry) (n t n' t' : String)
    (h : FirstEntryHas reg n' t') : FirstEntryHas (addTag reg n t) n' t' := by
  induction reg with
  | nil => simp [FirstEntryHas] at h
  | cons e rest ih =>
    obtain ⟨k, ts⟩ := e
    by_cases h2 : k = n
    · subst h2
      by_cases h3 : k = n'
      · subst h3
        simp [FirstEntryHas] at h
        simp [addTag, FirstEntryHas, mem_addToSet_of_mem _ _ _ h]
      · simp [FirstEntryHas, h3] at h
        simp [addTag, FirstEntryHas, h3, h]
    · by_cases h3 : k = n'
      · subst h3
        simp [FirstEntryHas] at h
        simp [addTag, h2, FirstEntryHas, h]
      · simp [FirstEntryHas, h3] at h
        simp [addTag, h2, FirstEntryHas, h3, ih h]

theorem firstEntryHas_addAll (reg : TagRegistry) (L : List (String × String))
    (n t : String) (h : FirstEntryHas reg n t) :
    FirstEntryHas (addAll reg L) n t := by
  induction L generalizing reg with
  | nil => simpa [addAll] using h
  | cons x xs ih =>
    show FirstEntryHas (addAll (addTag reg x.1 x.2) xs) n t
    exact ih _ (firstEntryHas_addTag _ _ _ _ _ h)

theorem firstEntryHas_addAll_of_mem (reg : TagRegistry)
    (L : List (String × String)) (pr : String × String) (h : pr ∈ L) :
    FirstEntryHas (addAll reg L) pr.1 pr.2 := by
  induction L generalizing reg with
  | nil => simp at h
  | cons x xs ih =>
    rcases List.mem_cons.mp h with h1 | h1
    · subst h1
      show FirstEntryHas (addAll (addTag reg pr.1 pr.2) xs) pr.1 pr.2
      exact firstEntryHas_addAll _ _ _ _ (firstEntryHas_addTag_self _ _ _)
    · exact ih _ h1

theorem addAll_of_forall (reg : TagRegistry) (L : List (String × String))
    (h : ∀ pr ∈ L, FirstEntryHas reg pr.1 pr.2) : addAll reg L = reg := by
  induction L with
  | nil => rfl
  | cons x xs ih =>
    have hx : addTag reg x.1 x.2 = reg :=
      addTag_of_firstEntryHas _ _ _ (h x (List.mem_cons_self _ _))
    show addAll (addTag reg x.1 x.2) xs = reg
    rw [hx]
    exact ih fun pr hpr => h pr (List.mem_cons_of_mem _ hpr)

theorem addAll_idem (reg : TagRegistry) (L : List (String × String)) :
    addAll (addAll reg L) L = addAll reg L :=
  addAll_of_forall _ _ fun pr hpr => firstEntryHas_addAll_of_mem _ _ _ hpr

theorem addTag_idem (reg : TagRegistry) (n t : String) :
    addTag (addTag reg n t) n t = addTag reg n t :=
  addTag_of_firstEntryHas _ _ _ (firstEntryHas_addTag_self _ _ _)

/-! ## Claim theorems -/

/-- Claim C1 (corrected), counterexample to the original claim: a project
whose DNA roles match the query `async` but which carries no tags at all
is still returned by `search_projects_by_dna` when the tag filter
`#backend` is supplied, so the result is not restricted to projects
carrying the supplied tag. -/
theorem dna_search_ignores_tag_cex :
    search_projects_by_dna "async" (some "#backend") [asyncProj] = [asyncProj]
    ∧ asyncProj.tags = [] := by decide

/-- Claim C1 (as amended): `search_projects_by_dna` returns exactly the
projects whose roles, capabilities, or structural patterns contain the
query case-insensitively (logical OR across the three DNA fields); the
`tag` argument is accepted by the parameter schema but has no effect on
the result. -/
theorem dna_search_semantics (query : String) (tag1 tag2 : Option String)
    (projects : List Project) (p : Project) :
    (p ∈ search_projects_by_dna query tag1 projects ↔
      p ∈ projects ∧
        (p.dna.roles.any (fun r => strContains (lowerStr r) (lowerStr query))
          || p.dna.capabilities.any
              (fun c => strContains (lowerStr c) (lowerStr query))
          || p.dna.structural_patterns.any
              (fun sp => strContains (lowerStr sp) (lowerStr query))) = true)
    ∧ search_projects_by_dna query tag1 projects
        = search_projects_by_dna query tag2 projects := by
  constructor
  · simp [search_projects_by_dna, dnaPred, List.mem_filter]
  · rfl

/-- Claim C2 (corrected), counterexample to the original claim: in
`get_git_status` the tag filter `backend` does not match the project
`alpha` carrying `#backend`, while `#backend` does — the `#`-injection
equivalence fails for `get_git_status` (and `list_branches`, whose filter
is identical). -/
theorem git_status_tag_no_normalization_cex :
    get_git_status_targets none (some "backend") [alphaProj] = []
    ∧ get_git_status_targets none (some "#backend") [alphaProj] = [alphaProj] := by
  decide

/-- Claim C2 (as amended): in `list_projects` a tag-filter value lacking a
leading `#` is equivalent to the `#`-prefixed form; `list_branches` and
`get_git_status` share one filter which compares the tag exactly as
supplied, case-insensitively, with no `#` injection; and on the concrete
snapshot, `list_projects(tag:"backend")` and `list_projects(stack:"GO")`
each return only `alpha`. -/
theorem tag_normalization (t : String) (q s a v : Option String)
    (projects : List Project) (h : startsWithHash t = false) :
    list_projects ⟨q, some t, s, a, v⟩ projects
      = list_projects ⟨q, some ("#" ++ t), s, a, v⟩ projects
    ∧ (∀ (q2 t2 : Option String) (ps : List Project),
        list_branches_targets q2 t2 ps = get_git_status_targets q2 t2 ps)
    ∧ (∀ (ps : List Project) (t2 : String) (p : Project),
        p ∈ get_git_status_targets none (some t2) ps ↔
          p ∈ ps ∧ (p.tags.any fun tg => lowerStr tg == lowerStr t2) = true)
    ∧ list_projects ⟨none, some "backend", none, none, none⟩ [alphaProj, betaProj]
        = [alphaProj]
    ∧ list_projects ⟨none, none, some "GO", none, none⟩ [alphaProj, betaProj]
        = [alphaProj] := by
  refine ⟨?_, fun _ _ _ => rfl, ?_, by decide, by decide⟩
  · show projects.filter _ = projects.filter _
    rw [show (some ("#" ++ t)).map normTag = (some t).map normTag from by
      simp [normTag_hash_append t h]]
  · intro ps t2 p
    simp [get_git_status_targets, gitTagPred, List.mem_filter]

/-- Claim C2 witness: the amended `#`-equivalence at the concrete tag
`backend` over the spec's two-project snapshot. -/
theorem tag_normalization_witness :
    startsWithHash "backend" = false
    ∧ list_projects ⟨none, some "backend", none, none, none⟩ [alphaProj, betaProj]
        = list_projects ⟨none, some ("#" ++ "backend"), none, none, none⟩
            [alphaProj, betaProj] :=
  ⟨by decide,
   (tag_normalization "backend" none none none none [alphaProj, betaProj]
      (by decide)).1⟩

/-- Claim C3: switching to an unregistered context name fails with
`ContextNotFound` carrying that name, the translated protocol error
message names the requested context, and the persisted configuration is
returned unchanged. -/
theorem switch_context_unknown (name : String) (config : GlobalConfig)
    (h : containsKey config.project_contexts name = false) :
    switch_context name config = (config, .error (.ContextNotFound name))
    ∧ (toad_error_to_mcp (.ContextNotFound name)).message
        = "Context '" ++ name ++ "' not found" := by
  constructor
  · simp [switch_context, h]
  · rfl

/-- Claim C3 witness: switching to `missing` against a configuration whose
only registered context is `alpha-ctx`. -/
theorem switch_context_unknown_witness :
    containsKey cfgAB.project_contexts "missing" = false
    ∧ (switch_context "missing" cfgAB
        = (cfgAB, .error (.ContextNotFound "missing"))
       ∧ (toad_error_to_mcp (.ContextNotFound "missing")).message
          = "Context '" ++ "missing" ++ "' not found") :=
  ⟨by decide, switch_context_unknown "missing" cfgAB (by decide)⟩

/-- Claim C4: `list_projects` with no filters supplied returns the
snapshot unchanged in content and order, and every filtering pass
(`list_projects`, `search_projects_by_dna`, the `get_git_status` /
`list_branches` target selection) returns a subsequence of its input. -/
theorem zero_filters_and_order (params : ListProjectsParams)
    (projects : List Project) (q : String) (t qo to2 : Option String) :
    List.Sublist (list_projects params projects) projects
    ∧ list_projects ⟨none, none, none, none, none⟩ projects = projects
    ∧ List.Sublist (search_projects_by_dna q t projects) projects
    ∧ List.Sublist (get_git_status_targets qo to2 projects) projects := by
  refine ⟨List.filter_sublist _, ?_, List.filter_sublist _, List.filter_sublist _⟩
  exact List.filter_eq_self.mpr fun a _ => rfl

/-- Claim C5 (corrected), counterexample to the original claim: the tag
filter normalizes the empty string to `#`, so `list_projects(tag:"")`
drops a project tagged `#backend` instead of retaining every record. -/
theorem empty_tag_filter_cex :
    list_projects ⟨none, some "", none, none, none⟩ [alphaProj] = []
    ∧ list_projects ⟨none, some "", none, none, none⟩ [alphaProj] ≠ [alphaProj] := by
  decide

/-- Claim C5 (as amended): the substring filters of `list_projects`
(query, stack, activity, vcs_status) supplied as the empty string retain
every record and are never an error; the tag filter normalizes `""` to
`"#"` and retains exactly the records having a tag that lowercases to
`"#"`. -/
theorem empty_filter_values (projects : List Project) :
    list_projects ⟨some "", none, some "", some "", some ""⟩ projects = projects
    ∧ list_projects ⟨none, some "", none, none, none⟩ projects
        = projects.filter fun p => p.tags.any fun tg => lowerStr tg == "#" := by
  constructor
  · apply List.filter_eq_self.mpr
    intro a _
    simp [listProjectsPred, strContains_empty]
    exact ⟨strContains_empty _, strContains_empty _, strContains_empty _,
      strContains_empty _⟩
  · have hn : normTag "" = "#" := by decide
    show projects.filter _ = _
    apply List.filter_congr
    intro p _
    simp [listProjectsPred, hn]

/-- Claim C6: running the same `tag_projects` call twice leaves the
persisted tag registry (and the reported message) identical to running it
once, in every mode, and `addTag` itself is idempotent — adding a
duplicate tag is a silent no-op. -/
theorem tag_projects_idempotent (params : TagParams)
    (projects : List Project) (reg : TagRegistry) (n tg : String) :
    tag_projects params projects (tag_projects params projects reg).1
      = tag_projects params projects reg
    ∧ addTag (addTag reg n tg) n tg = addTag reg n tg := by
  refine ⟨?_, addTag_idem reg n tg⟩
  by_cases h1 : params.harvest.getD false
  · simp [tag_projects, h1, addAll_idem]
  · by_cases h2 : (params.query.isSome || params.filter_tag.isSome) = true
    · cases hOr : params.tag.or params.project with
      | none => simp [tag_projects, h1, h2, hOr]
      | some tn =>
        by_cases hm :
          (projects.filter (filteredMatch params.query params.filter_tag)).isEmpty
        · simp [tag_projects, h1, h2, hOr, hm]
        · simp [tag_projects, h1, h2, hOr, hm, addAll_idem]
    · cases hp : params.project with
      | none => simp [tag_projects, h1, h2, hp]
      | some pn =>
        cases ht : params.tag with
        | none => simp [tag_projects, h1, h2, hp, ht]
        | some tn => simp [tag_projects, h1, h2, hp, ht, addTag_idem]

/-- Claim C7: harvesting over a snapshot of the single project
`that-project` with stack `rust` and no submodules, starting from an empty
tag registry, persists exactly `[("that-project", ["rust"])]` and reports
a count of 1 tagged project. -/
theorem harvest_single_project :
    tag_projects ⟨none, none, none, none, some true⟩ [thatProject] []
      = ([("that-project", ["rust"])], .ok "Tagged 1 projects.") := by decide

/-- Claim C8: when no project is named `missing`, `compare_projects` with
source `missing` fails — with no assumption about the target `beta` — and
the error message names `missing`, is preserved verbatim by the error
translator (code `-32000`), and contains the missing name as a
substring. -/
theorem compare_missing_source (projects : List Project)
    (h : (projects.all fun p => !(p.name == "missing")) = true) :
    compare_projects "missing" "beta" projects
      = .error (.Other ("Source project '" ++ "missing" ++ "' not found"))
    ∧ toad_error_to_mcp (.Other ("Source project '" ++ "missing" ++ "' not found"))
      = ⟨-32000, "Source project '" ++ "missing" ++ "' not found"⟩
    ∧ strContains "Source project 'missing' not found" "missing" = true := by
  refine ⟨?_, rfl, by decide⟩
  have hf : projects.find? (fun p => p.name == "missing") = none := by
    rw [List.find?_eq_none]
    intro x hx
    simp only [List.all_eq_true] at h
    simpa using h x hx
  unfold compare_projects
  rw [hf]

/-- Claim C8 witness: the failure at a snapshot that does contain a
project named `beta`. -/
theorem compare_missing_source_witness :
    (([betaProj].all fun p => !(p.name == "missing")) = true)
    ∧ (compare_projects "missing" "beta" [betaProj]
        = .error (.Other ("Source project '" ++ "missing" ++ "' not found"))
       ∧ toad_error_to_mcp
            (.Other ("Source project '" ++ "missing" ++ "' not found"))
          = ⟨-32000, "Source project '" ++ "missing" ++ "' not found"⟩
       ∧ strContains "Source project 'missing' not found" "missing" = true) :=
  ⟨by decide, compare_missing_source [betaProj] (by decide)⟩

/-- Claim C10: in filtered mode, an absent `tag` with a present `project`
uses the project value as the tag name (the two argument forms give the
same call result); the call errors exactly when both `tag` and `project`
are absent; and an empty match set yields the informational success
message with the persisted tag registry returned unchanged. -/
theorem tag_projects_filtered_mode (q ft : Option String) (hv : Option Bool)
    (projects : List Project) (reg : TagRegistry) (pn : String)
    (tg pj : Option String)
    (hMode : hv.getD false = false)
    (hFilt : (q.isSome || ft.isSome) = true) :
    tag_projects ⟨some pn, none, q, ft, hv⟩ projects reg
      = tag_projects ⟨none, some pn, q, ft, hv⟩ projects reg
    ∧ ((∃ e, (tag_projects ⟨pj, tg, q, ft, hv⟩ projects reg).2 = .error e)
        ↔ (tg = none ∧ pj = none))
    ∧ (tg.or pj = some pn →
        projects.filter (filteredMatch q ft) = [] →
        tag_projects ⟨pj, tg, q, ft, hv⟩ projects reg
          = (reg, .ok "No projects found matching filters.")) := by
  refine ⟨?_, ?_, ?_⟩
  · simp [tag_projects, hMode, hFilt, Option.or]
  · cases tg with
    | none =>
      cases pj with
      | none => simp [tag_projects, hMode, hFilt, Option.or]
      | some p0 =>
        cases hEmp : (projects.filter (filteredMatch q ft)).isEmpty <;>
          simp [tag_projects, hMode, hFilt, Option.or, hEmp]
    | some t0 =>
      cases hEmp : (projects.filter (filteredMatch q ft)).isEmpty <;>
        simp [tag_projects, hMode, hFilt, Option.or, hEmp]
  · intro hOr hFil
    simp [tag_projects, hMode, hFilt, hOr, hFil]

/-- Claim C10 witness: filtered mode (query `zzz` matches nothing is not
needed here — only the equal-result conjunct is extracted) with `project`
standing in for the absent `tag`. -/
theorem tag_projects_filtered_mode_witness :
    ((none : Option Bool).getD false = false
      ∧ ((some "zzz" : Option String).isSome
          || (none : Option String).isSome) = true)
    ∧ tag_projects ⟨some "x", none, some "zzz", none, none⟩ [alphaProj] []
        = tag_projects ⟨none, some "x", some "zzz", none, none⟩ [alphaProj] [] :=
  ⟨⟨by decide, by decide⟩,
   (tag_projects_filtered_mode (some "zzz") none none [alphaProj] [] "x"
      none none (by decide) (by decide)).1⟩

end ToadMcp
